import Mathlib

/-!
Verification development for the traefik-freeipa-sync repository.

The repository has two Python sources:
* `dns-automation.py` — the reconciliation engine: a FreeIPA client
  (`kinit`, `add_dns_record`, `remove_dns_record`, `ensure_service_principal`,
  `request_certificate`, `revoke_certificate`, `is_certificate_valid`,
  `update_traefik_certificates`), the hostname extractor
  (`extract_hostnames`), and the `main` startup-sync plus event loop.
* `web_catalog.py` — the service registry (`update_service_registry`,
  `remove_from_registry`, `load_manual_services`) and an HTTP viewer.

The definitions below are a shallow embedding of those functions.  Strings
are modelled as `List Char`; Python dicts as key-unique association lists;
timestamps as `Int` seconds; external processes (`ipa`, `openssl`, the
filesystem) as explicit state / outcome parameters, with the commands the
code issues recorded in an explicit trace.
-/

namespace TraefikFreeipaSync

/-! ## Association-list maps (Python `dict` model)

Python dicts preserve insertion order, update a present key in place and
append an absent key; `del` removes the (unique) binding of a key. -/

/-- Lookup in an association list; on a key-unique list this is dict lookup. -/
def getKey {α β : Type} [DecidableEq α] (k : α) : List (α × β) → Option β
  | [] => none
  | (k', v) :: rest => if k' = k then some v else getKey k rest

/-- Dict assignment `d[k] = v`: replace in place if present, else append. -/
def setKey {α β : Type} [DecidableEq α] (k : α) (v : β) : List (α × β) → List (α × β)
  | [] => [(k, v)]
  | (k', v') :: rest => if k' = k then (k, v) :: rest else (k', v') :: setKey k v rest

/-- Dict deletion `del d[k]`: drop the first binding of `k`. -/
def delKey {α β : Type} [DecidableEq α] (k : α) : List (α × β) → List (α × β)
  | [] => []
  | (k', v') :: rest => if k' = k then rest else (k', v') :: delKey k rest

/-- The keys of a map are pairwise distinct (true of every Python dict). -/
abbrev keysNodup {α β : Type} (m : List (α × β)) : Prop := (m.map Prod.fst).Nodup

/-! ## Character-list string helpers (Python `str` operations) -/

/-- Python `pat in s` (substring containment). -/
def containsSubstr (pat : List Char) : List Char → Bool
  | [] => pat.isPrefixOf ([] : List Char)
  | c :: rest => pat.isPrefixOf (c :: rest) || containsSubstr pat rest

/-- Worker for `removeAll`: while `skip > 0` we are inside an already
matched occurrence and drop characters without emitting them. -/
def removeAllAux (p : Char) (ps : List Char) : Nat → List Char → List Char
  | _, [] => []
  | skip + 1, _ :: rest => removeAllAux p ps skip rest
  | 0, c :: rest =>
    if (p :: ps).isPrefixOf (c :: rest) then removeAllAux p ps ps.length rest
    else c :: removeAllAux p ps 0 rest

/-- Python `s.replace(pat, '')` for the non-empty pattern `p :: ps`:
remove every occurrence, scanning left to right without overlap. -/
def removeAll (p : Char) (ps : List Char) (s : List Char) : List Char :=
  removeAllAux p ps 0 s

/-- The backtick character used by the Traefik `Host` rule syntax. -/
def btick : Char := Char.ofNat 96

/-- Try to match the regex `Host\(`([^`]+)`\)` at the start of `s`,
returning the captured group. -/
def tryHostAt (s : List Char) : Option (List Char) :=
  if ("Host(".toList ++ [btick]).isPrefixOf s then
    let after := s.drop 6
    let tok := after.takeWhile (fun c => c ≠ btick)
    if tok ≠ [] ∧ ([btick, ')']).isPrefixOf (after.drop tok.length) then some tok
    else none
  else none

/-- Python `re.search(r'Host\(`([^`]+)`\)', s)`: captured group of the
leftmost match, scanning start positions left to right. -/
def findHost : List Char → Option (List Char)
  | [] => none
  | c :: rest =>
    match tryHostAt (c :: rest) with
    | some tok => some tok
    | none => findHost rest

/-! ## Configuration (`config.yml` fields the reconciliation code reads) -/

structure Config where
  /-- `config['freeipa']['dns_zone']` -/
  dns_zone : List Char
  /-- `config['swarm']['extract_from_traefik']` -/
  extract_from_traefik : Bool
  /-- `config['swarm']['required_label']` -/
  required_label : List Char
  /-- `config['swarm']['traefik_ips']` -/
  traefik_ips : List (List Char)
  /-- `config['certificates']['enabled']` (default `False`) -/
  cert_enabled : Bool
  /-- `config['certificates']['cert_path']` (default `/certs/services`) -/
  cert_path : List Char
  /-- `config['certificates'].get('renew_threshold_days')`; `none` means the
  key is absent and the source's default of 30 applies. -/
  renew_threshold_days : Option Int
  deriving DecidableEq, Repr

/-! ## Hostname extractor (`extract_hostnames`, dns-automation.py 341-370) -/

/-- `'traefik.http.routers' in key and '.rule' in key`. -/
def isRuleKey (k : List Char) : Bool :=
  containsSubstr "traefik.http.routers".toList k && containsSubstr ".rule".toList k

/-- Body of the `for key, value in labels.items()` loop of
`extract_hostnames` (Method 2): match the Traefik rule, keep the host
token only if it ends with `"." + dns_zone`, strip via `str.replace`,
de-duplicate against the accumulator. -/
def extractStep (zone : List Char) (acc : List (List Char)) (kv : List Char × List Char) :
    List (List Char) :=
  if isRuleKey kv.1 then
    match findHost kv.2 with
    | some fqdn =>
      if ('.' :: zone).isSuffixOf fqdn then
        let hostname := removeAll '.' zone fqdn
        if hostname ∈ acc then acc else acc ++ [hostname]
      else acc
    | none => acc
  else acc

/-- `extract_hostnames(service)` over the service's labels.  Method 1 takes
the explicit `dns.hostname` label with `"." + dns_zone` removed via
`str.replace`; Method 2 folds `extractStep` over all labels when
`extract_from_traefik` is set. -/
def extract_hostnames (cfg : Config) (labels : List (List Char × List Char)) :
    List (List Char) :=
  let hostnames :=
    match getKey "dns.hostname".toList labels with
    | some v => [removeAll '.' cfg.dns_zone v]
    | none => []
  if cfg.extract_from_traefik then labels.foldl (extractStep cfg.dns_zone) hostnames
  else hostnames

/-- The spec's words for the rule-token transformation: "the rule's host
token with the configured zone suffix removed (and nothing else altered)".
Modelled from the spec, for comparison with the source's `str.replace`. -/
def spec_stripZoneSuffix (zone tok : List Char) : List Char :=
  tok.take (tok.length - ('.' :: zone).length)

/-! ## Concrete fixtures used by counterexamples and witnesses -/

/-- A small concrete configuration with zone `z` and rule extraction on. -/
def cfgZ : Config :=
  { dns_zone := "z".toList
    extract_from_traefik := true
    required_label := "dns.register".toList
    traefik_ips := ["10.0.0.1".toList, "10.0.0.2".toList]
    cert_enabled := false
    cert_path := "/certs/services".toList
    renew_threshold_days := none }


/-! ## Service registry (`web_catalog.py`) -/

/-- Python `str.title()`: an alphabetic character is upper-cased after a
non-alphabetic one (or at the start) and lower-cased otherwise. -/
def pyTitleAux : Bool → List Char → List Char
  | _, [] => []
  | prevAlpha, c :: rest =>
    if c.isAlpha then (if prevAlpha then c.toLower else c.toUpper) :: pyTitleAux true rest
    else c :: pyTitleAux false rest

/-- Python `s.title()`. -/
def pyTitle (s : List Char) : List Char := pyTitleAux false s

/-- Category derivation of `update_service_registry` (web_catalog.py
347-351): keyword match against the lower-cased service name, three fixed
buckets with `Applications` as the default. -/
def serviceCategory (service_name : List Char) : List Char :=
  let lower := service_name.map Char.toLower
  if ["traefik".toList, "portainer".toList, "prometheus".toList, "grafana".toList,
      "dns".toList, "catalog".toList].any (fun x => containsSubstr x lower) then
    "Infrastructure".toList
  else if ["monitor".toList, "cadvisor".toList, "node-exporter".toList,
      "alertmanager".toList].any (fun x => containsSubstr x lower) then
    "Monitoring".toList
  else "Applications".toList

/-- One catalog entry (the dict values written into `service_registry`).
`service_name` is `none` for manual entries, which do not set that key. -/
structure CatalogEntry where
  id : List Char
  service_name : Option (List Char)
  name : List Char
  hostname : List Char
  url : List Char
  description : List Char
  category : List Char
  auto_discovered : Bool
  has_certificate : Bool
  last_updated : List Char
  deriving DecidableEq, Repr, Inhabited

/-- The `service_registry` dict, keyed by hostname. -/
abbrev Registry := List (List Char × CatalogEntry)

/-- The dict literal assigned by `update_service_registry`
(web_catalog.py 354-365); `now` stands for `datetime.now().isoformat()`. -/
def mkCatalogEntry (hostname service_name dns_zone : List Char)
    (auto_discovered has_certificate : Bool) (description now : List Char) : CatalogEntry :=
  { id := hostname
    service_name := some service_name
    name := pyTitle ((service_name.map fun c => if c = '_' then ' ' else c).map
      fun c => if c = '-' then ' ' else c)
    hostname := hostname
    url := "https://".toList ++ hostname ++ '.' :: dns_zone
    description := description
    category := serviceCategory service_name
    auto_discovered := auto_discovered
    has_certificate := has_certificate
    last_updated := now }

/-- `update_service_registry`: overwrite the entry keyed by `hostname`. -/
def update_service_registry (hostname service_name dns_zone : List Char)
    (auto_discovered has_certificate : Bool) (description now : List Char)
    (reg : Registry) : Registry :=
  setKey hostname
    (mkCatalogEntry hostname service_name dns_zone auto_discovered has_certificate
      description now) reg

/-- `remove_from_registry`: delete the entry if present (the source's
membership test makes deletion of an absent key a no-op, as `delKey` is). -/
def remove_from_registry (hostname : List Char) (reg : Registry) : Registry :=
  delKey hostname reg

/-- One `manual_services` config item; `description` and `category` may be
absent (the source reads them with `.get` defaults). -/
structure ManualService where
  name : List Char
  url : List Char
  description : Option (List Char)
  category : Option (List Char)
  deriving DecidableEq, Repr

/-- The dict literal written by `load_manual_services` (web_catalog.py
380-391); manual entries set no `service_name` key. -/
def manualEntry (now : List Char) (s : ManualService) : CatalogEntry :=
  { id := (s.name.map Char.toLower).map fun c => if c = ' ' then '-' else c
    service_name := none
    name := s.name
    hostname := []
    url := s.url
    description := s.description.getD []
    category := s.category.getD "Other".toList
    auto_discovered := false
    has_certificate := "https://".toList.isPrefixOf s.url
    last_updated := now }

/-- `load_manual_services`: write each manual entry keyed by the derived
service id. -/
def load_manual_services (now : List Char) (manual : List ManualService)
    (reg : Registry) : Registry :=
  manual.foldl (fun r s =>
    let service_id := (s.name.map Char.toLower).map fun c => if c = ' ' then '-' else c
    setKey service_id (manualEntry now s) r) reg

/-- A mutating registry operation, as issued by the reconciliation code. -/
inductive RegOp where
  | upsert (hostname service_name dns_zone : List Char)
      (auto_discovered has_certificate : Bool) (description now : List Char)
  | remove (hostname : List Char)
  deriving DecidableEq, Repr

/-- Dispatch one registry operation. -/
def applyRegOp (reg : Registry) : RegOp → Registry
  | .upsert h sn z a c d n => update_service_registry h sn z a c d n reg
  | .remove h => remove_from_registry h reg

/-- Number of registry entries keyed by `k`. -/
def countKey (k : List Char) (reg : Registry) : Nat :=
  (reg.filter fun p => decide (p.1 = k)).length

/-! ## Directory Adapter (`FreeIPAClient`, dns-automation.py 43-338)

External processes are modelled explicitly: the FreeIPA DNS zone is a set
of (hostname, ip) address records, transient non-benign failures are an
injected predicate, and every command the code issues is recorded in an
`ExtCall` trace. -/

/-- One external command issued by the adapter. -/
inductive ExtCall where
  | kinit
  | dnsrecordAdd (zone hostname ip : List Char)
  | dnsrecordDel (zone hostname ip : List Char)
  | hostAdd (fqdn : List Char)
  | serviceAdd (principal : List Char)
  | opensslEnddate (certFile : List Char)
  | opensslGenKey (keyFile : List Char)
  | opensslReq (keyFile csrFile fqdn : List Char)
  | certRequest (csrFile principal : List Char)
  | certShow (serial certFile : List Char)
  | chmod (mode : Nat) (file : List Char)
  | rmFile (file : List Char)
  | rebuildTraefik
  deriving DecidableEq, Repr

/-- Calls addressed to the directory/PKI service (as opposed to purely
local file and `openssl` operations). -/
def isDirectoryCall : ExtCall → Bool
  | .kinit => true
  | .dnsrecordAdd _ _ _ => true
  | .dnsrecordDel _ _ _ => true
  | .hostAdd _ => true
  | .serviceAdd _ => true
  | .certRequest _ _ => true
  | .certShow _ _ => true
  | _ => false

/-- The zone's A records, as (hostname, ip) pairs. -/
abbrev DnsState := List (List Char × List Char)

/-- The `for ip in ip_addresses` loop of `add_dns_record` (dns-automation.py
74-92).  Server model per `ipa dnsrecord-add`: if `fails hostname ip` the
command errors for a non-benign reason (the code logs and returns `False`,
aborting the remaining IPs); otherwise, a present record answers "already
exists" (treated as success, state unchanged) and an absent one is added. -/
def addDnsLoop (fails : List Char → List Char → Bool) (zone hostname : List Char) :
    DnsState → List (List Char) → DnsState × Bool × List ExtCall
  | st, [] => (st, true, [])
  | st, ip :: rest =>
    let call := ExtCall.dnsrecordAdd zone hostname ip
    if fails hostname ip then (st, false, [call])
    else
      let st' := if (hostname, ip) ∈ st then st else (hostname, ip) :: st
      let out := addDnsLoop fails zone hostname st' rest
      (out.1, out.2.1, call :: out.2.2)

/-- `add_dns_record(hostname, ip_addresses)`: `kinit` first, then one
`ipa dnsrecord-add` per IP. -/
def add_dns_record (fails : List Char → List Char → Bool) (zone : List Char)
    (st : DnsState) (hostname : List Char) (ips : List (List Char)) :
    DnsState × Bool × List ExtCall :=
  let out := addDnsLoop fails zone hostname st ips
  (out.1, out.2.1, ExtCall.kinit :: out.2.2)

/-- The `for ip in ip_addresses` loop of `remove_dns_record`
(dns-automation.py 102-120): a missing record answers "not found" (treated
as success); `fails` injects any other failure, which aborts. -/
def removeDnsLoop (fails : List Char → List Char → Bool) (zone hostname : List Char) :
    DnsState → List (List Char) → DnsState × Bool × List ExtCall
  | st, [] => (st, true, [])
  | st, ip :: rest =>
    let call := ExtCall.dnsrecordDel zone hostname ip
    if fails hostname ip then (st, false, [call])
    else
      let st' := st.filter fun r => decide (r ≠ (hostname, ip))
      let out := removeDnsLoop fails zone hostname st' rest
      (out.1, out.2.1, call :: out.2.2)

/-- `remove_dns_record(hostname, ip_addresses)`: `kinit` first, then one
`ipa dnsrecord-del` per IP. -/
def remove_dns_record (fails : List Char → List Char → Bool) (zone : List Char)
    (st : DnsState) (hostname : List Char) (ips : List (List Char)) :
    DnsState × Bool × List ExtCall :=
  let out := removeDnsLoop fails zone hostname st ips
  (out.1, out.2.1, ExtCall.kinit :: out.2.2)

/-- Outcome of one `ipa host-add` / `ipa service-add` command. -/
inductive ExtResult where
  | ok
  | alreadyExists
  | err
  deriving DecidableEq, Repr

/-- External outcomes seen by `ensure_service_principal`. -/
structure PrincipalOutcomes where
  hostAdd : ExtResult
  serviceAdd : ExtResult
  deriving DecidableEq, Repr

/-- `ensure_service_principal(hostname)` (dns-automation.py 125-156):
`kinit`, `ipa host-add` (its failure is only a warning), `ipa service-add`
("already exists" counts as success). -/
def ensure_service_principal (zone : List Char) (o : PrincipalOutcomes)
    (hostname : List Char) : Bool × List ExtCall :=
  let fqdn := hostname ++ '.' :: zone
  let ok := match o.serviceAdd with
    | .ok => true
    | .alreadyExists => true
    | .err => false
  (ok, [ExtCall.kinit, ExtCall.hostAdd fqdn, ExtCall.serviceAdd ("HTTP/".toList ++ fqdn)])

/-- `is_certificate_valid(cert_file)` (dns-automation.py 271-296), given
the expiry parsed from `openssl x509 -enddate` (`none` when the command
fails or the date does not parse; both make the function return `False`).
Times are in seconds; `timedelta(days=n)` is `n * 86400`. -/
def is_certificate_valid (renew_threshold_days : Option Int) (now : Int)
    (parsedExpiry : Option Int) : Bool :=
  match parsedExpiry with
  | none => false
  | some expiry =>
    let renew_threshold := renew_threshold_days.getD 30
    let threshold := now + renew_threshold * 86400
    if expiry < threshold then false else true

/-- External outcomes seen by `request_certificate`. -/
structure CertWorld where
  /-- outcomes of the nested `ensure_service_principal` call -/
  principal : PrincipalOutcomes
  /-- existing files (certificate directory and `/tmp`) -/
  fs : List (List Char)
  /-- expiry parsed from the existing certificate, if it is inspected -/
  certExpiry : Option Int
  /-- `openssl genrsa` succeeds -/
  keygenOk : Bool
  /-- `openssl req` succeeds -/
  csrOk : Bool
  /-- `ipa cert-request` exits 0 -/
  certRequestOk : Bool
  /-- serial number parsed from the `ipa cert-request` output (`none` when
  absent: the code treats an unparseable response as failure) -/
  serial : Option (List Char)
  /-- `ipa cert-show` succeeds -/
  certShowOk : Bool
  deriving DecidableEq, Repr

/-- Body of `request_certificate` after the initial `kinit`
(dns-automation.py 165-241), returning the result and the trace of
commands issued after that `kinit`. -/
def requestCertBody (cfg : Config) (w : CertWorld) (now : Int) (hostname : List Char) :
    Bool × List ExtCall :=
  let fqdn := hostname ++ '.' :: cfg.dns_zone
  let sp := ensure_service_principal cfg.dns_zone w.principal hostname
  let key_file := cfg.cert_path ++ '/' :: hostname ++ ".key".toList
  let csr_file := "/tmp/".toList ++ hostname ++ ".csr".toList
  let cert_file := cfg.cert_path ++ '/' :: hostname ++ ".crt".toList
  if sp.1 = false then (false, sp.2)
  else
    let validTrace := if cert_file ∈ w.fs then [ExtCall.opensslEnddate cert_file] else []
    if cert_file ∈ w.fs ∧
        is_certificate_valid cfg.renew_threshold_days now w.certExpiry = true then
      (true, sp.2 ++ validTrace)
    else
      let keyStep : Bool × List ExtCall :=
        if key_file ∈ w.fs then (true, [])
        else if w.keygenOk then
          (true, [ExtCall.opensslGenKey key_file, ExtCall.chmod 600 key_file])
        else (false, [ExtCall.opensslGenKey key_file])
      if keyStep.1 = false then (false, sp.2 ++ validTrace ++ keyStep.2)
      else
        let csrTrace := [ExtCall.opensslReq key_file csr_file fqdn]
        let pre := sp.2 ++ validTrace ++ keyStep.2 ++ csrTrace
        if w.csrOk = false then (false, pre)
        else
          let reqTrace := [ExtCall.certRequest csr_file ("HTTP/".toList ++ fqdn)]
          if w.certRequestOk = false then (false, pre ++ reqTrace)
          else
            match w.serial with
            | none => (false, pre ++ reqTrace)
            | some serial =>
              let showTrace := [ExtCall.certShow serial cert_file]
              if w.certShowOk = false then (false, pre ++ reqTrace ++ showTrace)
              else
                (true, pre ++ reqTrace ++ showTrace ++
                  [ExtCall.chmod 644 cert_file, ExtCall.rmFile csr_file,
                   ExtCall.rebuildTraefik])

/-- `request_certificate(hostname)` (dns-automation.py 158-245): no-op
success when certificate automation is disabled, otherwise `kinit`
followed by the body. -/
def request_certificate (cfg : Config) (w : CertWorld) (now : Int) (hostname : List Char) :
    Bool × List ExtCall :=
  if cfg.cert_enabled = false then (true, [])
  else
    let out := requestCertBody cfg w now hostname
    (out.1, ExtCall.kinit :: out.2)

/-- `revoke_certificate(hostname)` (dns-automation.py 247-269): no-op
success when certificate automation is disabled; otherwise delete the
local certificate and key files if they exist and rebuild the Traefik TLS
configuration.  Returns the result, the remaining files and the trace. -/
def revoke_certificate (cfg : Config) (fs : List (List Char)) (hostname : List Char) :
    Bool × List (List Char) × List ExtCall :=
  if cfg.cert_enabled = false then (true, fs, [])
  else
    let cert_file := cfg.cert_path ++ '/' :: hostname ++ ".crt".toList
    let key_file := cfg.cert_path ++ '/' :: hostname ++ ".key".toList
    let t1 : List ExtCall := if cert_file ∈ fs then [ExtCall.rmFile cert_file] else []
    let fs1 := if cert_file ∈ fs then fs.filter (fun f => decide (f ≠ cert_file)) else fs
    let t2 : List ExtCall := if key_file ∈ fs1 then [ExtCall.rmFile key_file] else []
    let fs2 := if key_file ∈ fs1 then fs1.filter (fun f => decide (f ≠ key_file)) else fs1
    (true, fs2, t1 ++ t2 ++ [ExtCall.rebuildTraefik])


/-! ## Reconciliation engine (`main`, dns-automation.py 373-504)

The engine's state is the `managed_services` dict, the registry, and the
`last_kinit` clock.  The Docker cluster is a lookup function (for
`docker_client.services.get`), and — since the engine ignores the adapter
results except for `has_cert` — the `request_certificate` outcome is an
oracle.  The adapter and registry calls the engine makes are recorded as
an `AdapterCall` trace. -/

/-- A Docker Swarm service: id, name, and `Spec.Labels`. -/
structure Service where
  id : List Char
  name : List Char
  labels : List (List Char × List Char)
  deriving DecidableEq, Repr

/-- One Docker service event: `Action`, `Actor.ID`, and the wall-clock
time at which the loop body processes it. -/
structure Event where
  action : List Char
  service_id : Option (List Char)
  time : Int
  deriving DecidableEq, Repr

/-- One adapter/registry call issued by the engine loop. -/
inductive AdapterCall where
  | kinit
  | addDns (hostname : List Char) (ips : List (List Char))
  | removeDns (hostname : List Char) (ips : List (List Char))
  | requestCert (hostname : List Char)
  | revokeCert (hostname : List Char)
  | registryUpsert (hostname service_name : List Char)
  | registryRemove (hostname : List Char)
  deriving DecidableEq, Repr

/-- Calls of the "ensure absent" cleanup kind (DNS removal, certificate
revocation, registry removal). -/
def isCleanupCall : AdapterCall → Bool
  | .removeDns _ _ => true
  | .revokeCert _ => true
  | .registryRemove _ => true
  | _ => false

/-- Engine state: `managed_services`, the shared registry, `last_kinit`. -/
structure EngineState where
  managed : List (List Char × List (List Char))
  registry : Registry
  lastKinit : Int
  deriving DecidableEq, Repr

/-- "Ensure present" for one hostname (dns-automation.py 493-499, also
422-428): DNS add, certificate request when enabled, registry upsert. -/
def ensurePresentStep (cfg : Config) (certOracle : List Char → Bool)
    (service_name now : List Char) (acc : Registry × List AdapterCall)
    (hostname : List Char) : Registry × List AdapterCall :=
  let has_cert := cfg.cert_enabled && certOracle hostname
  (update_service_registry hostname service_name cfg.dns_zone true has_cert [] now acc.1,
   acc.2 ++ AdapterCall.addDns hostname cfg.traefik_ips ::
     ((if cfg.cert_enabled then [AdapterCall.requestCert hostname] else []) ++
      [AdapterCall.registryUpsert hostname service_name]))

/-- "Ensure absent" for one hostname (dns-automation.py 462-465): DNS
removal, certificate revocation, registry removal. -/
def ensureAbsentStep (cfg : Config) (acc : Registry × List AdapterCall)
    (hostname : List Char) : Registry × List AdapterCall :=
  (remove_from_registry hostname acc.1,
   acc.2 ++ [AdapterCall.removeDns hostname cfg.traefik_ips,
     AdapterCall.revokeCert hostname, AdapterCall.registryRemove hostname])

/-- One iteration of the event loop after the periodic-kinit check
(dns-automation.py 447-501): skip falsy ids; on `remove`, clean up a
tracked id's hostnames and untrack it; otherwise look the service up
(skip if gone), require the managed label and a non-empty hostname set,
and on `create`/`update` ensure-present every hostname and overwrite the
tracked set. -/
def processEvent (cfg : Config) (cluster : List Char → Option Service)
    (certOracle : List Char → Bool) (now : List Char)
    (st : EngineState) (ev : Event) : EngineState × List AdapterCall :=
  match ev.service_id with
  | none => (st, [])
  | some sid =>
    if sid = [] then (st, [])
    else if ev.action = "remove".toList then
      match getKey sid st.managed with
      | none => (st, [])
      | some hostnames =>
        let out := hostnames.foldl (ensureAbsentStep cfg) (st.registry, [])
        ({ st with managed := delKey sid st.managed, registry := out.1 }, out.2)
    else
      match cluster sid with
      | none => (st, [])
      | some svc =>
        if ¬ getKey cfg.required_label svc.labels = some "true".toList then (st, [])
        else if extract_hostnames cfg svc.labels = [] then (st, [])
        else if ev.action = "create".toList ∨ ev.action = "update".toList then
          let out := (extract_hostnames cfg svc.labels).foldl
            (ensurePresentStep cfg certOracle svc.name now) (st.registry, [])
          ({ st with
              managed := setKey sid (extract_hostnames cfg svc.labels) st.managed
              registry := out.1 }, out.2)
        else (st, [])

/-- `kinit_interval = 3600` (dns-automation.py 438). -/
def kinit_interval : Int := 3600

/-- A full loop iteration (dns-automation.py 440-501): re-authenticate
when more than `kinit_interval` seconds have passed since `last_kinit`,
then handle the event. -/
def processEventTimed (cfg : Config) (cluster : List Char → Option Service)
    (certOracle : List Char → Bool) (now : List Char)
    (st : EngineState) (ev : Event) : EngineState × List AdapterCall :=
  let refresh := ev.time - st.lastKinit > kinit_interval
  let st1 := if refresh then { st with lastKinit := ev.time } else st
  let pre : List AdapterCall := if refresh then [AdapterCall.kinit] else []
  let out := processEvent cfg cluster certOracle now st1 ev
  (out.1, pre ++ out.2)

/-- Startup-sync handling of one existing service (dns-automation.py
412-430): managed label plus at least one hostname required before the
service is processed and tracked. -/
def syncOne (cfg : Config) (certOracle : List Char → Bool) (now : List Char)
    (acc : EngineState × List AdapterCall) (svc : Service) :
    EngineState × List AdapterCall :=
  if getKey cfg.required_label svc.labels = some "true".toList then
    if extract_hostnames cfg svc.labels = [] then acc
    else
      let out := (extract_hostnames cfg svc.labels).foldl
        (ensurePresentStep cfg certOracle svc.name now) (acc.1.registry, [])
      ({ acc.1 with
          managed := setKey svc.id (extract_hostnames cfg svc.labels) acc.1.managed
          registry := out.1 }, acc.2 ++ out.2)
  else acc

/-- The startup sync over the current service list (dns-automation.py
410-430). -/
def startupSync (cfg : Config) (certOracle : List Char → Bool) (now : List Char)
    (services : List Service) (st : EngineState) : EngineState × List AdapterCall :=
  services.foldl (syncOne cfg certOracle now) (st, [])

/-- Every tracked service id maps to a non-empty hostname list. -/
abbrev mapWF (m : List (List Char × List (List Char))) : Prop :=
  ∀ p ∈ m, p.2 ≠ []

/-! ## Further concrete fixtures for witnesses and counterexamples -/

/-- The configuration `cfgZ` with certificate automation enabled. -/
def cfgC : Config := { cfgZ with cert_enabled := true }

/-- A concrete IP list. -/
def ipsW : List (List Char) := ["10.0.0.1".toList, "10.0.0.2".toList]

/-- A failure-free external DNS server. -/
def failsNone : List Char → List Char → Bool := fun _ _ => false

/-- A DNS server failing (non-benignly) exactly on the second IP. -/
def failsSecond : List Char → List Char → Bool :=
  fun _ ip => decide (ip = "10.0.0.2".toList)

/-- A concrete managed service. -/
def svcW : Service :=
  { id := "svc1".toList
    name := "web".toList
    labels := [("dns.register".toList, "true".toList),
               ("dns.hostname".toList, "app2".toList)] }

/-- A cluster containing exactly `svcW`. -/
def clusterW : List Char → Option Service :=
  fun sid => if sid = "svc1".toList then some svcW else none

/-- A certificate oracle that always fails. -/
def oracleW : List Char → Bool := fun _ => false

/-- A concrete engine state tracking `svc1 -> [app, api]`. -/
def stW : EngineState :=
  { managed := [("svc1".toList, ["app".toList, "api".toList])]
    registry := []
    lastKinit := 0 }

/-- A concrete, failure-free certificate world. -/
def wW : CertWorld :=
  { principal := { hostAdd := .ok, serviceAdd := .ok }
    fs := []
    certExpiry := none
    keygenOk := true
    csrOk := true
    certRequestOk := true
    serial := some "123".toList
    certShowOk := true }

/-- A concrete update event arriving 4000 s after the last refresh. -/
def evW : Event :=
  { action := "update".toList, service_id := some "svc1".toList, time := 4000 }

-- THEOREMS BELOW

/-! ## Map lemmas -/

theorem getKey_setKey_self {α β : Type} [DecidableEq α] (k : α) (v : β) (l : List (α × β)) :
    getKey k (setKey k v l) = some v := by
  induction l with
  | nil => simp [setKey, getKey]
  | cons p rest ih =>
    obtain ⟨k', v'⟩ := p
    by_cases h : k' = k
    · simp [setKey, h, getKey]
    · simp [setKey, h, getKey, ih]

theorem getKey_setKey_ne {α β : Type} [DecidableEq α] {a k : α} (v : β) (l : List (α × β))
    (h : a ≠ k) : getKey a (setKey k v l) = getKey a l := by
  have hk : k ≠ a := Ne.symm h
  induction l with
  | nil => simp [setKey, getKey, hk]
  | cons p rest ih =>
    obtain ⟨k', v'⟩ := p
    by_cases hk' : k' = k
    · subst hk'
      simp [setKey, getKey, hk]
    · simp [setKey, hk', getKey, ih]

theorem mem_setKey {α β : Type} [DecidableEq α] {p : α × β} {k : α} {v : β} {l : List (α × β)}
    (h : p ∈ setKey k v l) : p = (k, v) ∨ p ∈ l := by
  induction l with
  | nil => simpa [setKey] using h
  | cons q rest ih =>
    obtain ⟨k', v'⟩ := q
    by_cases hk : k' = k
    · simp only [setKey, if_pos hk, List.mem_cons] at h
      rcases h with h | h
      · exact Or.inl h
      · exact Or.inr (List.mem_cons_of_mem _ h)
    · simp only [setKey, if_neg hk, List.mem_cons] at h
      rcases h with h | h
      · exact Or.inr (by simp [h])
      · rcases ih h with h' | h'
        · exact Or.inl h'
        · exact Or.inr (List.mem_cons_of_mem _ h')

theorem mem_keys_setKey {α β : Type} [DecidableEq α] {a k : α} {v : β} {l : List (α × β)}
    (h : a ∈ (setKey k v l).map Prod.fst) : a = k ∨ a ∈ l.map Prod.fst := by
  simp only [List.mem_map] at h
  obtain ⟨p, hp, hpa⟩ := h
  rcases mem_setKey hp with h' | h'
  · left; rw [← hpa, h']
  · right; exact List.mem_map.mpr ⟨p, h', hpa⟩

theorem keysNodup_setKey {α β : Type} [DecidableEq α] (k : α) (v : β) {l : List (α × β)}
    (h : keysNodup l) : keysNodup (setKey k v l) := by
  induction l with
  | nil => simp [keysNodup, setKey]
  | cons p rest ih =>
    obtain ⟨k', v'⟩ := p
    simp only [keysNodup, List.map_cons, List.nodup_cons] at h
    by_cases hk : k' = k
    · subst hk
      simpa [keysNodup, setKey] using h
    · have h2 := ih h.2
      simp only [keysNodup, setKey, if_neg hk, List.map_cons, List.nodup_cons]
      refine ⟨fun hc => ?_, h2⟩
      rcases mem_keys_setKey hc with h' | h'
      · exact hk h'
      · exact h.1 h'

theorem mem_delKey {α β : Type} [DecidableEq α] {p : α × β} {k : α} {l : List (α × β)}
    (h : p ∈ delKey k l) : p ∈ l := by
  induction l with
  | nil => simpa [delKey] using h
  | cons q rest ih =>
    obtain ⟨k', v'⟩ := q
    by_cases hk : k' = k
    · simp only [delKey, if_pos hk] at h
      exact List.mem_cons_of_mem _ h
    · simp only [delKey, if_neg hk, List.mem_cons] at h
      rcases h with h | h
      · simp [h]
      · exact List.mem_cons_of_mem _ (ih h)

theorem delKey_sublist {α β : Type} [DecidableEq α] (k : α) (l : List (α × β)) :
    (delKey k l).Sublist l := by
  induction l with
  | nil => simp [delKey]
  | cons q rest ih =>
    obtain ⟨k', v'⟩ := q
    by_cases hk : k' = k
    · simpa [delKey, hk] using List.sublist_cons_self _ _
    · simp only [delKey, if_neg hk]
      exact ih.cons₂ (k', v')

theorem keysNodup_delKey {α β : Type} [DecidableEq α] (k : α) {l : List (α × β)}
    (h : keysNodup l) : keysNodup (delKey k l) :=
  ((delKey_sublist k l).map Prod.fst).nodup h

/-! ## Extractor lemmas -/

theorem extractStep_spec (zone : List Char) (acc : List (List Char)) (kv : List Char × List Char) :
    extractStep zone acc kv = acc ∨
      ∃ fqdn, isRuleKey kv.1 = true ∧ findHost kv.2 = some fqdn ∧
        ('.' :: zone).isSuffixOf fqdn = true ∧
        removeAll '.' zone fqdn ∉ acc ∧
        extractStep zone acc kv = acc ++ [removeAll '.' zone fqdn] := by
  unfold extractStep
  by_cases hk : isRuleKey kv.1
  · cases hf : findHost kv.2 with
    | none => simp [hk, hf]
    | some fqdn =>
      by_cases hs : ('.' :: zone).isSuffixOf fqdn
      · by_cases hm : removeAll '.' zone fqdn ∈ acc
        · simp [hk, hf, hs, hm]
        · exact Or.inr ⟨fqdn, hk, rfl, hs, hm, by simp [hk, hf, hs, hm]⟩
      · simp [hk, hf, hs]
  · simp [hk]

theorem foldl_extractStep_append (zone : List Char) (labels : List (List Char × List Char)) :
    ∀ acc, ∃ t, labels.foldl (extractStep zone) acc = acc ++ t := by
  induction labels with
  | nil => exact fun acc => ⟨[], by simp⟩
  | cons kv rest ih =>
    intro acc
    rcases extractStep_spec zone acc kv with h | ⟨fqdn, _, _, _, _, h⟩
    · obtain ⟨t, ht⟩ := ih acc
      exact ⟨t, by simpa [h] using ht⟩
    · obtain ⟨t, ht⟩ := ih (acc ++ [removeAll '.' zone fqdn])
      exact ⟨[removeAll '.' zone fqdn] ++ t, by simp [h, ht]⟩

theorem foldl_extractStep_mem (zone : List Char) (labels : List (List Char × List Char)) :
    ∀ acc x, x ∈ labels.foldl (extractStep zone) acc →
      x ∈ acc ∨ ∃ kv ∈ labels, isRuleKey kv.1 = true ∧
        ∃ fqdn, findHost kv.2 = some fqdn ∧ ('.' :: zone).isSuffixOf fqdn = true ∧
          x = removeAll '.' zone fqdn := by
  induction labels with
  | nil => intro acc x hx; exact Or.inl (by simpa using hx)
  | cons kv rest ih =>
    intro acc x hx
    simp only [List.foldl_cons] at hx
    rcases ih (extractStep zone acc kv) x hx with h | ⟨kv', hkv', hrest⟩
    · rcases extractStep_spec zone acc kv with he | ⟨fqdn, hk, hf, hs, _, he⟩
      · rw [he] at h; exact Or.inl h
      · rw [he] at h
        rcases List.mem_append.mp h with h' | h'
        · exact Or.inl h'
        · have hx' : x = removeAll '.' zone fqdn := by simpa using h'
          exact Or.inr ⟨kv, List.mem_cons_self _ _, hk, fqdn, hf, hs, hx'⟩
    · exact Or.inr ⟨kv', List.mem_cons_of_mem _ hkv', hrest⟩

theorem foldl_extractStep_nodup (zone : List Char) (labels : List (List Char × List Char)) :
    ∀ acc, acc.Nodup → (labels.foldl (extractStep zone) acc).Nodup := by
  induction labels with
  | nil => intro acc h; simpa using h
  | cons kv rest ih =>
    intro acc h
    simp only [List.foldl_cons]
    apply ih
    rcases extractStep_spec zone acc kv with he | ⟨fqdn, _, _, _, hm, he⟩
    · rwa [he]
    · rw [he]
      simpa [List.nodup_append] using ⟨h, hm⟩


/-! ## Claim C4 -/

/-- Claim C4, counterexample: the source strips the zone with
`str.replace('.' + zone, '')`, which removes every occurrence of
`"." + zone`, not only the suffix.  For the rule token `a.z.z` with zone
`z`, the claim's "suffix removed (and nothing else altered)" short name is
`a.z`, but the code extracts `a`. -/
theorem rule_strip_counterexample :
    extract_hostnames cfgZ
        [("traefik.http.routers.r.rule".toList, "Host(`a.z.z`)".toList)] = ["a".toList] ∧
    spec_stripZoneSuffix "z".toList "a.z.z".toList = "a.z".toList ∧
    ("a".toList : List Char) ≠ "a.z".toList := by
  decide

/-- Claim C4 (amended): for every hostname extracted from a routing-rule
label (no explicit `dns.hostname` override present), the extracted short
name equals the rule's Host token with **every occurrence** of
`"." + dns_zone` removed (Python `str.replace`; this coincides with suffix
stripping whenever `"." + dns_zone` occurs in the token only as its
suffix), and a token is omitted entirely when it does not end with
`"." + dns_zone`: every output element arises from a token that does. -/
theorem rule_strip_amended (cfg : Config) (labels : List (List Char × List Char))
    (hover : getKey "dns.hostname".toList labels = none)
    (hn : List Char) (hmem : hn ∈ extract_hostnames cfg labels) :
    ∃ kv ∈ labels, isRuleKey kv.1 = true ∧
      ∃ fqdn, findHost kv.2 = some fqdn ∧
        ('.' :: cfg.dns_zone).isSuffixOf fqdn = true ∧
        hn = removeAll '.' cfg.dns_zone fqdn := by
  simp only [extract_hostnames, hover] at hmem
  cases ht : cfg.extract_from_traefik
  · rw [ht] at hmem
    simp at hmem
  · rw [ht] at hmem
    simp only [if_pos] at hmem
    rcases foldl_extractStep_mem cfg.dns_zone labels [] hn hmem with h | h
    · simp at h
    · exact h

/-- Witness for the amended C4 at a concrete rule label. -/
theorem rule_strip_amended_witness :
    ∃ kv ∈ ([("traefik.http.routers.r.rule".toList, "Host(`api.z`)".toList)] :
        List (List Char × List Char)),
      isRuleKey kv.1 = true ∧
        ∃ fqdn, findHost kv.2 = some fqdn ∧
          ('.' :: cfgZ.dns_zone).isSuffixOf fqdn = true ∧
          "api".toList = removeAll '.' cfgZ.dns_zone fqdn :=
  rule_strip_amended cfgZ
    [("traefik.http.routers.r.rule".toList, "Host(`api.z`)".toList)]
    (by decide) "api".toList (by decide)

/-! ## Claim C8 -/

/-- Claim C8: if the explicit `dns.hostname` override label and a routing
rule both yield the same short name, `extract_hostnames` outputs that name
exactly once, at the head of the output (the override candidate comes
first), and the whole output is duplicate-free. -/
theorem override_dedup_first (cfg : Config) (labels : List (List Char × List Char))
    (v k rv fqdn : List Char)
    (hover : getKey "dns.hostname".toList labels = some v)
    (hrule : (k, rv) ∈ labels) (hkey : isRuleKey k = true)
    (hfind : findHost rv = some fqdn)
    (hsuf : ('.' :: cfg.dns_zone).isSuffixOf fqdn = true)
    (hsame : removeAll '.' cfg.dns_zone fqdn = removeAll '.' cfg.dns_zone v) :
    (extract_hostnames cfg labels).head? = some (removeAll '.' cfg.dns_zone v) ∧
    (extract_hostnames cfg labels).count (removeAll '.' cfg.dns_zone v) = 1 ∧
    (extract_hostnames cfg labels).Nodup := by
  simp only [extract_hostnames, hover]
  cases ht : cfg.extract_from_traefik
  · simp
  · simp only [if_pos]
    obtain ⟨t, htl⟩ := foldl_extractStep_append cfg.dns_zone labels [removeAll '.' cfg.dns_zone v]
    have hnd : (removeAll '.' cfg.dns_zone v :: t).Nodup := by
      have h0 := foldl_extractStep_nodup cfg.dns_zone labels [removeAll '.' cfg.dns_zone v] (by simp)
      rw [htl] at h0
      simpa using h0
    have hnt : removeAll '.' cfg.dns_zone v ∉ t := (List.nodup_cons.mp hnd).1
    rw [htl]
    refine ⟨by simp, ?_, by simpa using hnd⟩
    simp [List.count_cons_self, List.count_eq_zero.mpr hnt]

/-- Witness for C8: override `app.z` and a rule token `app.z` both yield
`app`; it appears once, first, and the output is duplicate-free. -/
theorem override_dedup_first_witness :
    (extract_hostnames cfgZ
        [("dns.hostname".toList, "app.z".toList),
         ("traefik.http.routers.web.rule".toList, "Host(`app.z`)".toList)]).head? =
      some (removeAll '.' cfgZ.dns_zone "app.z".toList) ∧
    (extract_hostnames cfgZ
        [("dns.hostname".toList, "app.z".toList),
         ("traefik.http.routers.web.rule".toList, "Host(`app.z`)".toList)]).count
        (removeAll '.' cfgZ.dns_zone "app.z".toList) = 1 ∧
    (extract_hostnames cfgZ
        [("dns.hostname".toList, "app.z".toList),
         ("traefik.http.routers.web.rule".toList, "Host(`app.z`)".toList)]).Nodup :=
  override_dedup_first cfgZ
    [("dns.hostname".toList, "app.z".toList),
     ("traefik.http.routers.web.rule".toList, "Host(`app.z`)".toList)]
    "app.z".toList "traefik.http.routers.web.rule".toList "Host(`app.z`)".toList
    "app.z".toList (by decide) (by decide) (by decide) (by decide) (by decide) (by decide)


theorem countKey_eq_zero_of_not_mem {k : List Char} {reg : Registry}
    (h : k ∉ reg.map Prod.fst) : countKey k reg = 0 := by
  induction reg with
  | nil => rfl
  | cons p rest ih =>
    simp only [List.map_cons, List.mem_cons, not_or] at h
    have hp : ¬ p.1 = k := fun hc => h.1 hc.symm
    simp only [countKey, List.filter_cons, decide_eq_true_eq] at ih ⊢
    simp [hp, ih h.2]

theorem countKey_le_one_of_keysNodup {reg : Registry} (h : keysNodup reg) (k : List Char) :
    countKey k reg ≤ 1 := by
  induction reg with
  | nil => simp [countKey]
  | cons p rest ih =>
    simp only [keysNodup, List.map_cons, List.nodup_cons] at h
    by_cases hp : p.1 = k
    · subst hp
      have h0 : countKey p.1 rest = 0 := countKey_eq_zero_of_not_mem h.1
      simp only [countKey, List.filter_cons] at h0 ⊢
      simp [h0]
    · have := ih h.2
      simpa [countKey, List.filter_cons, hp] using this

/-! ## Claim C7 -/

/-- Claim C7: starting from any key-unique registry, every sequence of
upsert/remove operations keeps at most one entry per hostname, and an
upsert leaves exactly the entry built from that (latest) write's
arguments, `auto_discovered` included — last writer wins. -/
theorem registry_last_writer_wins (reg : Registry) (ops : List RegOp)
    (hwf : keysNodup reg) :
    keysNodup (ops.foldl applyRegOp reg) ∧
    (∀ hostname, countKey hostname (ops.foldl applyRegOp reg) ≤ 1) ∧
    ∀ hostname service_name dns_zone auto_discovered has_certificate description now,
      getKey hostname
          (update_service_registry hostname service_name dns_zone auto_discovered
            has_certificate description now (ops.foldl applyRegOp reg)) =
        some (mkCatalogEntry hostname service_name dns_zone auto_discovered
          has_certificate description now) := by
  have hpres : ∀ r : Registry, keysNodup r → keysNodup (ops.foldl applyRegOp r) := by
    induction ops with
    | nil => intro r h; simpa using h
    | cons op rest ih =>
      intro r h
      simp only [List.foldl_cons]
      apply ih
      cases op with
      | upsert hh sn z a c d n =>
        exact keysNodup_setKey _ _ h
      | remove hh => exact keysNodup_delKey _ h
  have hnd := hpres reg hwf
  exact ⟨hnd, countKey_le_one_of_keysNodup hnd,
    fun hostname sn z a c d n => getKey_setKey_self _ _ _⟩

/-- Witness for C7: two upserts of the same hostname with different
`auto_discovered` flags, applied after loading a manual service; the
theorem is applied at that concrete registry and operation list. -/
theorem registry_last_writer_wins_witness :
    keysNodup
        (([RegOp.upsert "app".toList "web".toList "z".toList true false [] "t1".toList,
           RegOp.upsert "app".toList "web".toList "z".toList false false [] "t2".toList]).foldl
          applyRegOp
          (load_manual_services "t0".toList
            [{ name := "My App".toList, url := "https://app.z".toList,
               description := none, category := none }] [])) ∧
    (∀ hostname, countKey hostname
        (([RegOp.upsert "app".toList "web".toList "z".toList true false [] "t1".toList,
           RegOp.upsert "app".toList "web".toList "z".toList false false [] "t2".toList]).foldl
          applyRegOp
          (load_manual_services "t0".toList
            [{ name := "My App".toList, url := "https://app.z".toList,
               description := none, category := none }] [])) ≤ 1) ∧
    ∀ hostname service_name dns_zone auto_discovered has_certificate description now,
      getKey hostname
          (update_service_registry hostname service_name dns_zone auto_discovered
            has_certificate description now
            (([RegOp.upsert "app".toList "web".toList "z".toList true false [] "t1".toList,
               RegOp.upsert "app".toList "web".toList "z".toList false false [] "t2".toList]).foldl
              applyRegOp
              (load_manual_services "t0".toList
                [{ name := "My App".toList, url := "https://app.z".toList,
                   description := none, category := none }] []))) =
        some (mkCatalogEntry hostname service_name dns_zone auto_discovered
          has_certificate description now) :=
  registry_last_writer_wins
    (load_manual_services "t0".toList
      [{ name := "My App".toList, url := "https://app.z".toList,
         description := none, category := none }] [])
    [RegOp.upsert "app".toList "web".toList "z".toList true false [] "t1".toList,
     RegOp.upsert "app".toList "web".toList "z".toList false false [] "t2".toList]
    (by decide)


/-! ## DNS adapter lemmas -/

theorem addDnsLoop_mono (fails : List Char → List Char → Bool) (zone hostname : List Char)
    (ips : List (List Char)) :
    ∀ st a, a ∈ st → a ∈ (addDnsLoop fails zone hostname st ips).1 := by
  induction ips with
  | nil => intro st a ha; simpa [addDnsLoop] using ha
  | cons ip rest ih =>
    intro st a ha
    by_cases hf : fails hostname ip = true
    · simpa [addDnsLoop, hf] using ha
    · simp only [addDnsLoop, Bool.not_eq_true] at hf ⊢
      rw [if_neg (by simp [hf])]
      apply ih
      by_cases hm : (hostname, ip) ∈ st
      · simpa [hm] using ha
      · simp only [if_neg hm]
        exact List.mem_cons_of_mem _ ha

theorem addDnsLoop_idem (fails : List Char → List Char → Bool) (zone hostname : List Char)
    (ips : List (List Char)) :
    ∀ st, addDnsLoop fails zone hostname (addDnsLoop fails zone hostname st ips).1 ips =
      addDnsLoop fails zone hostname st ips := by
  induction ips with
  | nil => intro st; simp [addDnsLoop]
  | cons ip rest ih =>
    intro st
    by_cases hf : fails hostname ip = true
    · simp [addDnsLoop, hf]
    · have hmem : (hostname, ip) ∈ (if (hostname, ip) ∈ st then st else (hostname, ip) :: st) := by
        by_cases hm : (hostname, ip) ∈ st <;> simp [hm]
      have hmem2 := addDnsLoop_mono fails zone hostname rest _ _ hmem
      simp only [addDnsLoop, hf, if_false, Bool.false_eq_true]
      rw [if_pos hmem2, ih]

theorem addDnsLoop_ok_of_no_fail (fails : List Char → List Char → Bool)
    (zone hostname : List Char) (ips : List (List Char)) :
    ∀ st, (∀ ip ∈ ips, fails hostname ip = false) →
      (addDnsLoop fails zone hostname st ips).2.1 = true := by
  induction ips with
  | nil => intro st _; simp [addDnsLoop]
  | cons ip rest ih =>
    intro st h
    have hf : fails hostname ip = false := h ip (List.mem_cons_self _ _)
    simp only [addDnsLoop, hf, Bool.false_eq_true, if_false]
    exact ih _ fun i hi => h i (List.mem_cons_of_mem _ hi)

theorem addDnsLoop_abort (fails : List Char → List Char → Bool)
    (zone hostname f : List Char) (post : List (List Char))
    (hff : fails hostname f = true) :
    ∀ pre : List (List Char), ∀ st, (∀ ip ∈ pre, fails hostname ip = false) →
      (addDnsLoop fails zone hostname st (pre ++ f :: post)).2 =
        (false, (pre ++ [f]).map (ExtCall.dnsrecordAdd zone hostname)) := by
  intro pre
  induction pre with
  | nil => intro st _; simp [addDnsLoop, hff]
  | cons ip pre' ih =>
    intro st h
    have hf : fails hostname ip = false := h ip (List.mem_cons_self _ _)
    simp only [List.cons_append, addDnsLoop, hf, Bool.false_eq_true, if_false]
    have hrec := ih (if (hostname, ip) ∈ st then st else (hostname, ip) :: st)
      fun i hi => h i (List.mem_cons_of_mem _ hi)
    simp [hrec]

/-! ## Claim C5 -/

/-- Claim C5: `add_dns_record` is idempotent — a second call with the same
hostname and IP list from the first call's end state returns the same
end state, result and trace; when no non-benign failure occurs the call
returns `true` regardless of which records already exist ("already
exists" is success); and a non-benign failure on one IP aborts the
remaining IPs (the issued commands stop at the failing IP) and returns
`false`. -/
theorem add_dns_record_idempotent (fails : List Char → List Char → Bool)
    (zone : List Char) (st : DnsState) (hostname : List Char) (ips : List (List Char)) :
    add_dns_record fails zone (add_dns_record fails zone st hostname ips).1 hostname ips =
      add_dns_record fails zone st hostname ips ∧
    ((∀ ip ∈ ips, fails hostname ip = false) →
      (add_dns_record fails zone st hostname ips).2.1 = true) ∧
    (∀ pre f post, ips = pre ++ f :: post → (∀ ip ∈ pre, fails hostname ip = false) →
      fails hostname f = true →
      (add_dns_record fails zone st hostname ips).2.1 = false ∧
      (add_dns_record fails zone st hostname ips).2.2 =
        ExtCall.kinit :: (pre ++ [f]).map (ExtCall.dnsrecordAdd zone hostname)) := by
  refine ⟨?_, ?_, ?_⟩
  · simp only [add_dns_record]
    rw [addDnsLoop_idem]
  · intro h
    simp only [add_dns_record]
    exact addDnsLoop_ok_of_no_fail fails zone hostname ips st h
  · intro pre f post hips hpre hff
    subst hips
    have h2 := addDnsLoop_abort fails zone hostname f post hff pre st hpre
    simp only [add_dns_record]
    constructor
    · exact congrArg Prod.fst h2
    · simp [congrArg Prod.snd h2]

/-- Witness for C5: on two IPs with no failures a repeated call is a
no-op and succeeds; with a failure on the second IP the call reports
`false` and stops at the failing IP. -/
theorem add_dns_record_idempotent_witness :
    add_dns_record failsNone "z".toList
        (add_dns_record failsNone "z".toList [] "app".toList ipsW).1 "app".toList ipsW =
      add_dns_record failsNone "z".toList [] "app".toList ipsW ∧
    (add_dns_record failsNone "z".toList [] "app".toList ipsW).2.1 = true ∧
    (add_dns_record failsSecond "z".toList [] "app".toList ipsW).2.1 = false ∧
    (add_dns_record failsSecond "z".toList [] "app".toList ipsW).2.2 =
      ExtCall.kinit :: (["10.0.0.1".toList] ++ ["10.0.0.2".toList]).map
        (ExtCall.dnsrecordAdd "z".toList "app".toList) := by
  have h1 := (add_dns_record_idempotent failsNone "z".toList [] "app".toList ipsW).1
  have h2 := (add_dns_record_idempotent failsNone "z".toList [] "app".toList ipsW).2.1
    (by decide)
  have h3 := (add_dns_record_idempotent failsSecond "z".toList [] "app".toList ipsW).2.2
    ["10.0.0.1".toList] "10.0.0.2".toList [] (by decide) (by decide) (by decide)
  exact ⟨h1, h2, h3.1, h3.2⟩

/-! ## Claim C6 -/

/-- Claim C6: `is_certificate_valid` reports renewal (returns `false`)
for a certificate expiring exactly `renew_threshold_days - 1` days from
now, and reports valid (`true`) for one expiring `renew_threshold_days +
1` days from now; the threshold is the configured value, defaulting to 30
days when the configuration key is absent. -/
theorem cert_validity_boundary (renew_threshold_days : Option Int) (now : Int) :
    is_certificate_valid renew_threshold_days now
        (some (now + (renew_threshold_days.getD 30 - 1) * 86400)) = false ∧
    is_certificate_valid renew_threshold_days now
        (some (now + (renew_threshold_days.getD 30 + 1) * 86400)) = true ∧
    is_certificate_valid none now (some (now + (30 - 1) * 86400)) = false ∧
    is_certificate_valid none now (some (now + (30 + 1) * 86400)) = true := by
  refine ⟨?_, ?_, ?_, ?_⟩
  · simp only [is_certificate_valid]
    rw [if_pos (by omega)]
  · simp only [is_certificate_valid]
    rw [if_neg (by omega)]
  · simp only [is_certificate_valid]
    rw [if_pos (by simp [Option.getD])]
  · simp only [is_certificate_valid]
    rw [if_neg (by simp [Option.getD])]

/-! ## Revocation lemmas -/

theorem crtFile_ne_keyFile (path hostname : List Char) :
    path ++ '/' :: hostname ++ ".crt".toList ≠ path ++ '/' :: hostname ++ ".key".toList := by
  intro h
  have h' := congrArg (fun l => l.reverse.head?) h
  have e1 : (".crt".toList : List Char) = ['.', 'c', 'r', 't'] := rfl
  have e2 : (".key".toList : List Char) = ['.', 'k', 'e', 'y'] := rfl
  rw [e1, e2] at h'
  simp [List.reverse_append] at h'

theorem revoke_trace_eq (cfg : Config) (fs : List (List Char)) (hostname : List Char)
    (hen : cfg.cert_enabled = true) :
    (revoke_certificate cfg fs hostname).2.2 =
      (if cfg.cert_path ++ '/' :: hostname ++ ".crt".toList ∈ fs then
        [ExtCall.rmFile (cfg.cert_path ++ '/' :: hostname ++ ".crt".toList)] else []) ++
      (if cfg.cert_path ++ '/' :: hostname ++ ".key".toList ∈ fs then
        [ExtCall.rmFile (cfg.cert_path ++ '/' :: hostname ++ ".key".toList)] else []) ++
      [ExtCall.rebuildTraefik] := by
  have hkc := Ne.symm (crtFile_ne_keyFile cfg.cert_path hostname)
  rw [show (".crt".toList : List Char) = ['.', 'c', 'r', 't'] from rfl,
      show (".key".toList : List Char) = ['.', 'k', 'e', 'y'] from rfl] at hkc
  by_cases h1 : cfg.cert_path ++ '/' :: (hostname ++ ['.', 'c', 'r', 't']) ∈ fs
  · by_cases h2 : cfg.cert_path ++ '/' :: (hostname ++ ['.', 'k', 'e', 'y']) ∈ fs
    · simp [revoke_certificate, hen, h1, h2, List.mem_filter, hkc]
    · simp [revoke_certificate, hen, h1, h2, List.mem_filter]
  · by_cases h2 : cfg.cert_path ++ '/' :: (hostname ++ ['.', 'k', 'e', 'y']) ∈ fs
    · simp [revoke_certificate, hen, h1, h2]
    · simp [revoke_certificate, hen, h1, h2]

/-! ## Claim C9 -/

/-- Claim C9: with certificate automation enabled, `revoke_certificate`
succeeds unconditionally (also when neither file exists), issues only the
deletions of the local key/certificate files that exist followed by the
TLS-configuration rebuild, and sends no command at all to the
directory/PKI service — the directory's certificate state is untouched. -/
theorem revoke_certificate_local_only (cfg : Config) (fs : List (List Char))
    (hostname : List Char) (hen : cfg.cert_enabled = true) :
    (revoke_certificate cfg fs hostname).1 = true ∧
    (revoke_certificate cfg fs hostname).2.2 =
      (if cfg.cert_path ++ '/' :: hostname ++ ".crt".toList ∈ fs then
        [ExtCall.rmFile (cfg.cert_path ++ '/' :: hostname ++ ".crt".toList)] else []) ++
      (if cfg.cert_path ++ '/' :: hostname ++ ".key".toList ∈ fs then
        [ExtCall.rmFile (cfg.cert_path ++ '/' :: hostname ++ ".key".toList)] else []) ++
      [ExtCall.rebuildTraefik] ∧
    ∀ c ∈ (revoke_certificate cfg fs hostname).2.2, isDirectoryCall c = false := by
  refine ⟨by simp [revoke_certificate, hen], revoke_trace_eq cfg fs hostname hen, ?_⟩
  rw [revoke_trace_eq cfg fs hostname hen]
  intro c hc
  rcases List.mem_append.mp hc with h | h
  · rcases List.mem_append.mp h with h' | h'
    · split at h' <;> simp_all [isDirectoryCall]
    · split at h' <;> simp_all [isDirectoryCall]
  · simp_all [isDirectoryCall]

/-- Witness for C9 with an empty filesystem: revocation still succeeds
and only rebuilds the TLS configuration. -/
theorem revoke_certificate_local_only_witness :
    (revoke_certificate cfgC [] "app".toList).1 = true ∧
    (revoke_certificate cfgC [] "app".toList).2.2 =
      (if cfgC.cert_path ++ '/' :: "app".toList ++ ".crt".toList ∈ ([] : List (List Char)) then
        [ExtCall.rmFile (cfgC.cert_path ++ '/' :: "app".toList ++ ".crt".toList)] else []) ++
      (if cfgC.cert_path ++ '/' :: "app".toList ++ ".key".toList ∈ ([] : List (List Char)) then
        [ExtCall.rmFile (cfgC.cert_path ++ '/' :: "app".toList ++ ".key".toList)] else []) ++
      [ExtCall.rebuildTraefik] ∧
    ∀ c ∈ (revoke_certificate cfgC [] "app".toList).2.2, isDirectoryCall c = false :=
  revoke_certificate_local_only cfgC [] "app".toList (by decide)

/-! ## Engine auxiliary lemmas -/

theorem processEvent_lastKinit (cfg : Config) (cluster : List Char → Option Service)
    (certOracle : List Char → Bool) (now : List Char) (st : EngineState) (ev : Event) :
    (processEvent cfg cluster certOracle now st ev).1.lastKinit = st.lastKinit := by
  unfold processEvent
  repeat' split
  all_goals rfl

/-! ## Claim C3 -/

/-- Claim C3, counterexample: `revoke_certificate` is a mutating Directory
Adapter operation, yet with certificate automation enabled its trace at a
concrete input contains no `kinit` — it performs no credential refresh
before acting. -/
theorem kinit_policy_counterexample :
    cfgC.cert_enabled = true ∧
    ExtCall.kinit ∉
      (revoke_certificate cfgC ["/certs/services/app.crt".toList] "app".toList).2.2 := by
  decide

/-- Claim C3 (amended): `add_dns_record`, `remove_dns_record`,
`ensure_service_principal`, and `request_certificate` (when certificate
automation is enabled) each perform a `kinit` credential refresh before
attempting their action; `revoke_certificate` performs no refresh at all
(it only touches local state); and the event loop performs an additional
refresh when it processes an event more than `kinit_interval` (3600 s)
after the previous refresh, updating the refresh clock. -/
theorem kinit_policy_amended :
    (∀ fails zone st hostname ips,
      (add_dns_record fails zone st hostname ips).2.2.head? = some ExtCall.kinit) ∧
    (∀ fails zone st hostname ips,
      (remove_dns_record fails zone st hostname ips).2.2.head? = some ExtCall.kinit) ∧
    (∀ zone o hostname,
      (ensure_service_principal zone o hostname).2.head? = some ExtCall.kinit) ∧
    (∀ cfg w now hostname, cfg.cert_enabled = true →
      (request_certificate cfg w now hostname).2.head? = some ExtCall.kinit) ∧
    (∀ cfg fs hostname, ExtCall.kinit ∉ (revoke_certificate cfg fs hostname).2.2) ∧
    (∀ cfg cluster certOracle now st ev, ev.time - st.lastKinit > kinit_interval →
      (processEventTimed cfg cluster certOracle now st ev).2.head? = some AdapterCall.kinit ∧
      (processEventTimed cfg cluster certOracle now st ev).1.lastKinit = ev.time) := by
  refine ⟨?_, ?_, ?_, ?_, ?_, ?_⟩
  · intro fails zone st hostname ips
    simp [add_dns_record]
  · intro fails zone st hostname ips
    simp [remove_dns_record]
  · intro zone o hostname
    simp [ensure_service_principal]
  · intro cfg w now hostname hen
    simp [request_certificate, hen]
  · intro cfg fs hostname hmem
    by_cases hen : cfg.cert_enabled = true
    · rw [revoke_trace_eq cfg fs hostname hen] at hmem
      rcases List.mem_append.mp hmem with h | h
      · rcases List.mem_append.mp h with h' | h'
        · split at h' <;> simp_all
        · split at h' <;> simp_all
      · simp_all
    · have hd : cfg.cert_enabled = false := by simpa using hen
      simp [revoke_certificate, hd] at hmem
  · intro cfg cluster certOracle now st ev ht
    constructor
    · simp [processEventTimed, ht]
    · simp only [processEventTimed, if_pos ht]
      rw [processEvent_lastKinit]

/-- Witness for the amended C3: a concrete enabled certificate request
starts with `kinit`, and a concrete loop iteration 4000 s after the last
refresh leads with `kinit` and moves the refresh clock. -/
theorem kinit_policy_amended_witness :
    (request_certificate cfgC wW 0 "app".toList).2.head? = some ExtCall.kinit ∧
    (processEventTimed cfgZ clusterW oracleW "t".toList stW evW).2.head? =
      some AdapterCall.kinit ∧
    (processEventTimed cfgZ clusterW oracleW "t".toList stW evW).1.lastKinit = evW.time :=
  ⟨kinit_policy_amended.2.2.2.1 cfgC wW 0 "app".toList (by decide),
   (kinit_policy_amended.2.2.2.2.2 cfgZ clusterW oracleW "t".toList stW evW (by decide)).1,
   (kinit_policy_amended.2.2.2.2.2 cfgZ clusterW oracleW "t".toList stW evW (by decide)).2⟩

/-! ## Engine fold lemmas -/

theorem ensureAbsent_trace (cfg : Config) (hostnames : List (List Char)) :
    ∀ reg tr, (hostnames.foldl (ensureAbsentStep cfg) (reg, tr)).2 =
      tr ++ hostnames.flatMap fun h =>
        [AdapterCall.removeDns h cfg.traefik_ips, AdapterCall.revokeCert h,
         AdapterCall.registryRemove h] := by
  induction hostnames with
  | nil => intro reg tr; simp
  | cons h rest ih =>
    intro reg tr
    simp only [List.foldl_cons, ensureAbsentStep]
    rw [ih]
    simp

theorem ensureAbsent_registry (cfg : Config) (hostnames : List (List Char)) :
    ∀ reg tr, (hostnames.foldl (ensureAbsentStep cfg) (reg, tr)).1 =
      hostnames.foldl (fun r h => remove_from_registry h r) reg := by
  induction hostnames with
  | nil => intro reg tr; simp
  | cons h rest ih =>
    intro reg tr
    simp only [List.foldl_cons, ensureAbsentStep]
    exact ih _ _

theorem ensurePresent_trace (cfg : Config) (certOracle : List Char → Bool)
    (sn now : List Char) (hostnames : List (List Char)) :
    ∀ reg tr, (hostnames.foldl (ensurePresentStep cfg certOracle sn now) (reg, tr)).2 =
      tr ++ hostnames.flatMap fun h =>
        AdapterCall.addDns h cfg.traefik_ips ::
          ((if cfg.cert_enabled then [AdapterCall.requestCert h] else []) ++
           [AdapterCall.registryUpsert h sn]) := by
  induction hostnames with
  | nil => intro reg tr; simp
  | cons h rest ih =>
    intro reg tr
    simp only [List.foldl_cons, ensurePresentStep]
    rw [ih]
    simp

theorem ensurePresent_registry_frame (cfg : Config) (certOracle : List Char → Bool)
    (sn now : List Char) (hostnames : List (List Char)) :
    ∀ reg tr x, x ∉ hostnames →
      getKey x (hostnames.foldl (ensurePresentStep cfg certOracle sn now) (reg, tr)).1 =
        getKey x reg := by
  induction hostnames with
  | nil => intro reg tr x _; simp
  | cons h rest ih =>
    intro reg tr x hx
    simp only [List.mem_cons, not_or] at hx
    simp only [List.foldl_cons, ensurePresentStep]
    rw [ih _ _ x hx.2]
    simp only [update_service_registry]
    exact getKey_setKey_ne _ _ hx.1

/-! ## Claim C1 -/

/-- Claim C1: a `remove` event whose service id is tracked applies "ensure
absent" to every recorded hostname — `remove_dns_record` with the
configured ingress IP pool, `revoke_certificate`, and registry removal —
and deletes the id from the managed-service map; a `remove` event for an
untracked id issues none of those calls and leaves the state unchanged. -/
theorem remove_event_cleanup (cfg : Config) (cluster : List Char → Option Service)
    (certOracle : List Char → Bool) (now : List Char) (st : EngineState)
    (sid : List Char) (t : Int) (hsid : sid ≠ []) :
    (∀ hostnames, getKey sid st.managed = some hostnames →
      processEvent cfg cluster certOracle now st
          { action := "remove".toList, service_id := some sid, time := t } =
        ({ st with
            managed := delKey sid st.managed
            registry := hostnames.foldl (fun r h => remove_from_registry h r) st.registry },
         hostnames.flatMap fun h =>
           [AdapterCall.removeDns h cfg.traefik_ips, AdapterCall.revokeCert h,
            AdapterCall.registryRemove h])) ∧
    (getKey sid st.managed = none →
      processEvent cfg cluster certOracle now st
          { action := "remove".toList, service_id := some sid, time := t } = (st, [])) := by
  constructor
  · intro hostnames hm
    have hreg := ensureAbsent_registry cfg hostnames st.registry []
    have htr := ensureAbsent_trace cfg hostnames st.registry []
    simp [processEvent, hsid, hm, hreg, htr]
  · intro hm
    simp [processEvent, hsid, hm]

/-- Witness for C1: the tracked service `svc1` with hostnames
`[app, api]` is cleaned up and untracked; a `remove` for the untracked id
`zzz` is a no-op. -/
theorem remove_event_cleanup_witness :
    processEvent cfgZ clusterW oracleW "t".toList stW
        { action := "remove".toList, service_id := some "svc1".toList, time := 0 } =
      ({ stW with
          managed := delKey "svc1".toList stW.managed
          registry := (["app".toList, "api".toList]).foldl
            (fun r h => remove_from_registry h r) stW.registry },
       (["app".toList, "api".toList]).flatMap fun h =>
         [AdapterCall.removeDns h cfgZ.traefik_ips, AdapterCall.revokeCert h,
          AdapterCall.registryRemove h]) ∧
    processEvent cfgZ clusterW oracleW "t".toList stW
        { action := "remove".toList, service_id := some "zzz".toList, time := 0 } =
      (stW, []) :=
  ⟨(remove_event_cleanup cfgZ clusterW oracleW "t".toList stW "svc1".toList 0
      (by decide)).1 ["app".toList, "api".toList] (by decide),
   (remove_event_cleanup cfgZ clusterW oracleW "t".toList stW "zzz".toList 0
      (by decide)).2 (by decide)⟩

/-! ## Claim C2 -/

/-- Claim C2: a `create`/`update` event on a tracked service id whose new
hostname set differs from the recorded one applies "ensure present"
exactly to the new hostnames and overwrites the map entry with the new
set; the transition performs no DNS removal, certificate revocation, or
registry removal, and the registry entries of hostnames outside the new
set (the dangling old hostnames in particular) are untouched. -/
theorem update_event_frame (cfg : Config) (cluster : List Char → Option Service)
    (certOracle : List Char → Bool) (now : List Char) (st : EngineState)
    (sid : List Char) (t : Int) (act : List Char) (svc : Service)
    (old new : List (List Char))
    (hsid : sid ≠ [])
    (hact : act = "create".toList ∨ act = "update".toList)
    (hold : getKey sid st.managed = some old)
    (hsvc : cluster sid = some svc)
    (hlab : getKey cfg.required_label svc.labels = some "true".toList)
    (hnew : extract_hostnames cfg svc.labels = new)
    (hne : new ≠ [])
    (hdiff : new ≠ old) :
    (processEvent cfg cluster certOracle now st
        { action := act, service_id := some sid, time := t }).1.managed =
      setKey sid new st.managed ∧
    (processEvent cfg cluster certOracle now st
        { action := act, service_id := some sid, time := t }).2 =
      new.flatMap (fun h =>
        AdapterCall.addDns h cfg.traefik_ips ::
          ((if cfg.cert_enabled then [AdapterCall.requestCert h] else []) ++
           [AdapterCall.registryUpsert h svc.name])) ∧
    (∀ c ∈ (processEvent cfg cluster certOracle now st
        { action := act, service_id := some sid, time := t }).2,
      isCleanupCall c = false) ∧
    (∀ hn, hn ∉ new →
      getKey hn (processEvent cfg cluster certOracle now st
          { action := act, service_id := some sid, time := t }).1.registry =
        getKey hn st.registry) := by
  have hnr : act ≠ ['r', 'e', 'm', 'o', 'v', 'e'] := by
    rcases hact with h | h <;> subst h <;> decide
  have hactl : act = ['c', 'r', 'e', 'a', 't', 'e'] ∨ act = ['u', 'p', 'd', 'a', 't', 'e'] := by
    rcases hact with h | h <;> subst h
    · exact Or.inl rfl
    · exact Or.inr rfl
  have hred : processEvent cfg cluster certOracle now st
      { action := act, service_id := some sid, time := t } =
      ({ st with
          managed := setKey sid new st.managed
          registry := (new.foldl (ensurePresentStep cfg certOracle svc.name now)
            (st.registry, [])).1 },
       (new.foldl (ensurePresentStep cfg certOracle svc.name now) (st.registry, [])).2) := by
    simp [processEvent, hsid, hnr, hsvc, hlab, hnew, hne, hactl]
  have htr := ensurePresent_trace cfg certOracle svc.name now new st.registry []
  refine ⟨by rw [hred], ?_, ?_, ?_⟩
  · rw [hred]
    simpa using htr
  · intro c hc
    rw [hred] at hc
    simp only [htr, List.nil_append, List.mem_flatMap] at hc
    obtain ⟨h, _, hc⟩ := hc
    simp only [List.mem_cons, List.mem_append, List.mem_singleton, List.not_mem_nil,
      or_false] at hc
    rcases hc with rfl | hc
    · rfl
    rcases hc with hc | rfl
    · split at hc <;> simp_all [isCleanupCall]
    · rfl
  · intro hn hx
    rw [hred]
    exact ensurePresent_registry_frame cfg certOracle svc.name now new st.registry [] hn hx

/-- Witness for C2: an `update` of `svc1` changes its hostnames from
`[app, api]` to `[app2]`; only `app2` is ensured present, the map entry is
overwritten, and no cleanup call is made for `app` or `api`. -/
theorem update_event_frame_witness :
    (processEvent cfgZ clusterW oracleW "t".toList stW
        { action := "update".toList, service_id := some "svc1".toList, time := 0 }).1.managed =
      setKey "svc1".toList ["app2".toList] stW.managed ∧
    (processEvent cfgZ clusterW oracleW "t".toList stW
        { action := "update".toList, service_id := some "svc1".toList, time := 0 }).2 =
      (["app2".toList]).flatMap (fun h =>
        AdapterCall.addDns h cfgZ.traefik_ips ::
          ((if cfgZ.cert_enabled then [AdapterCall.requestCert h] else []) ++
           [AdapterCall.registryUpsert h svcW.name])) ∧
    (∀ c ∈ (processEvent cfgZ clusterW oracleW "t".toList stW
        { action := "update".toList, service_id := some "svc1".toList, time := 0 }).2,
      isCleanupCall c = false) ∧
    (∀ hn, hn ∉ (["app2".toList] : List (List Char)) →
      getKey hn (processEvent cfgZ clusterW oracleW "t".toList stW
          { action := "update".toList, service_id := some "svc1".toList, time := 0 }).1.registry =
        getKey hn stW.registry) :=
  update_event_frame cfgZ clusterW oracleW "t".toList stW "svc1".toList 0
    "update".toList svcW ["app".toList, "api".toList] ["app2".toList]
    (by decide) (Or.inr rfl) (by decide) (by decide) (by decide) (by decide)
    (by decide) (by decide)

/-! ## Claim C10 -/

theorem mapWF_delKey {m : List (List Char × List (List Char))} (k : List Char)
    (h : mapWF m) : mapWF (delKey k m) :=
  fun p hp => h p (mem_delKey hp)

theorem mapWF_setKey {m : List (List Char × List (List Char))} {k : List Char}
    {v : List (List Char)} (hv : v ≠ []) (h : mapWF m) : mapWF (setKey k v m) := by
  intro p hp
  rcases mem_setKey hp with h' | h'
  · subst h'
    simpa using hv
  · exact h p h'

theorem processEvent_mapWF (cfg : Config) (cluster : List Char → Option Service)
    (certOracle : List Char → Bool) (now : List Char) (st : EngineState) (ev : Event)
    (h : mapWF st.managed) :
    mapWF (processEvent cfg cluster certOracle now st ev).1.managed := by
  unfold processEvent
  repeat' split
  all_goals first
    | exact h
    | exact mapWF_delKey _ h
    | exact mapWF_setKey (by assumption) h

theorem syncOne_mapWF (cfg : Config) (certOracle : List Char → Bool) (now : List Char)
    (acc : EngineState × List AdapterCall) (svc : Service) (h : mapWF acc.1.managed) :
    mapWF (syncOne cfg certOracle now acc svc).1.managed := by
  unfold syncOne
  repeat' split
  all_goals first
    | exact h
    | exact mapWF_setKey (by assumption) h

theorem startupSync_mapWF (cfg : Config) (certOracle : List Char → Bool) (now : List Char)
    (services : List Service) :
    ∀ acc : EngineState × List AdapterCall, mapWF acc.1.managed →
      mapWF ((services.foldl (syncOne cfg certOracle now) acc).1.managed) := by
  induction services with
  | nil => intro acc h; simpa using h
  | cons svc rest ih =>
    intro acc h
    simp only [List.foldl_cons]
    exact ih _ (syncOne_mapWF cfg certOracle now acc svc h)

/-- Claim C10: every entry of the managed-service map carries a non-empty
hostname list — both the startup sync and the (timed) event-loop
transition record a service id only together with at least one extracted
hostname, and every engine transition preserves the invariant. -/
theorem managed_map_nonempty (cfg : Config) (cluster : List Char → Option Service)
    (certOracle : List Char → Bool) (now : List Char) :
    (∀ st ev, mapWF st.managed →
      mapWF (processEventTimed cfg cluster certOracle now st ev).1.managed) ∧
    (∀ services st, mapWF st.managed →
      mapWF (startupSync cfg certOracle now services st).1.managed) := by
  constructor
  · intro st ev h
    have h1 : mapWF (if ev.time - st.lastKinit > kinit_interval then
        { st with lastKinit := ev.time } else st).managed := by
      split <;> exact h
    simpa [processEventTimed] using
      processEvent_mapWF cfg cluster certOracle now _ ev h1
  · intro services st h
    exact startupSync_mapWF cfg certOracle now services (st, []) h

/-- Witness for C10 at a concrete state, event and service list. -/
theorem managed_map_nonempty_witness :
    mapWF (processEventTimed cfgZ clusterW oracleW "t".toList stW evW).1.managed ∧
    mapWF (startupSync cfgZ oracleW "t".toList [svcW] stW).1.managed :=
  ⟨(managed_map_nonempty cfgZ clusterW oracleW "t".toList).1 stW evW (by decide),
   (managed_map_nonempty cfgZ clusterW oracleW "t".toList).2 [svcW] stW (by decide)⟩

end TraefikFreeipaSync
